import Mathlib

/-!
Shallow embedding of the ADS-B sample-to-frame extraction and delivery
pipeline of `src/src/main.rs` (functions `produce` and `main`).

The sample buffer acquired by `sync_rx` is `messages : [u8; 4096]`; we model
it as a function `Nat → Nat` whose values at the indices the program reads
are the buffer's bytes (all below 256, since the source type is `u8`).
The extraction loop scans slots of 16 bytes at offsets 0, 16, …, 4080;
a slot is valid when bit 0 of its first byte is set; the frame length is 14
when bit 7 of the slot's third byte is set, else 7; the frame bytes start at
slot offset + 2 and are rendered as `*` + lowercase hex + `;\n`.
-/

namespace BladeRFAdsb

/-- A sample buffer: byte at each index.  The hardware fills indices
0 … 4095 with `u8` values (below 256). -/
def SampleBuffer : Type := Nat → Nat

/-- One lowercase hex digit character for a value below 16, as produced by
the Rust formatter: digits `0`-`9` then letters `a`-`f`. -/
def hexDigit (n : Nat) : Char :=
  if n < 10 then Char.ofNat (48 + n) else Char.ofNat (87 + n)

/-- Two-digit lowercase hex rendering of one byte: the Rust format string
applied to a `u8` value in `format!("{:02x}", messages[i + 2 + k])`. -/
def hexByte (b : Nat) : String :=
  String.mk [hexDigit (b / 16 % 16), hexDigit (b % 16)]

/-- Slot validity test from `produce`: `(messages[i] & 0x01) == 1`. -/
def slotValid (buf : SampleBuffer) (i : Nat) : Bool :=
  buf i &&& 0x01 == 1

/-- Frame length selection from `produce`: `end = 14` when
`(messages[i + 2] & 0x80) == 0x80`, else `end = 7`. -/
def frameEnd (buf : SampleBuffer) (i : Nat) : Nat :=
  if buf (i + 2) &&& 0x80 == 0x80 then 14 else 7

/-- The bytes of the extracted frame: `messages[i + 2 + k]` for
`k = 0 … end - 1`. -/
def frameBytes (buf : SampleBuffer) (i : Nat) : List Nat :=
  (List.range (frameEnd buf i)).map (fun k => buf (i + 2 + k))

/-- The wire record built in `produce`: start from `"*"`, push the hex of
each frame byte in order, then push `";\n"`. -/
def renderRecord (frame : List Nat) : String :=
  (frame.foldl (fun s b => s ++ hexByte b) "*") ++ ";\n"

/-- What one slot contributes: a wire record when the slot is valid,
nothing otherwise. -/
def extractSlot (buf : SampleBuffer) (i : Nat) : Option String :=
  if slotValid buf i then some (renderRecord (frameBytes buf i)) else none

/-- The slot offsets visited by `for i in (0..4096).step_by(16)`. -/
def slotOffsets : List Nat :=
  (List.range 256).map (fun j => j * 16)

/-- The ordered sequence of wire records one pass of the extraction loop
emits for a buffer. -/
def extract (buf : SampleBuffer) : List String :=
  slotOffsets.filterMap (extractSlot buf)


/-- Numeric value of a lowercase hex digit character, the inverse of
`hexDigit` on its range. -/
def hexVal (c : Char) : Nat :=
  if 97 ≤ c.toNat then c.toNat - 87 else c.toNat - 48

/-- Decode a sequence of hex characters, two characters per byte, most
significant digit first. -/
def decodeHex : List Char → List Nat
  | c1 :: c2 :: rest => (16 * hexVal c1 + hexVal c2) :: decodeHex rest
  | _ => []

/-- Whether a character is a lowercase hexadecimal digit: `0`-`9` or
`a`-`f`. -/
def isLowerHexDigit (c : Char) : Bool :=
  (48 ≤ c.toNat && c.toNat ≤ 57) || (97 ≤ c.toNat && c.toNat ≤ 102)

/-- The frame length is the number of frame bytes. -/
theorem frameBytes_length (buf : SampleBuffer) (i : Nat) :
    (frameBytes buf i).length = frameEnd buf i := by
  simp [frameBytes]

/-- The frame length is at most 14. -/
theorem frameEnd_le (buf : SampleBuffer) (i : Nat) : frameEnd buf i ≤ 14 := by
  unfold frameEnd; split <;> omega

/-- Claim C1: a valid slot (bit 0x01 of its first byte set) yields a frame of
exactly 14 bytes when bit 0x80 of the slot's third byte is set and exactly
7 bytes when it is unset; no other length is ever produced, and an invalid
slot yields no record at all. -/
theorem c1_frame_length (buf : SampleBuffer) (i : Nat) :
    (slotValid buf i = false → extractSlot buf i = none) ∧
    (slotValid buf i = true →
      extractSlot buf i = some (renderRecord (frameBytes buf i)) ∧
      (buf (i + 2) &&& 0x80 = 0x80 → (frameBytes buf i).length = 14) ∧
      (buf (i + 2) &&& 0x80 ≠ 0x80 → (frameBytes buf i).length = 7)) ∧
    ((frameBytes buf i).length = 7 ∨ (frameBytes buf i).length = 14) := by
  refine ⟨fun h => by simp [extractSlot, h], fun h => ⟨by simp [extractSlot, h], ?_, ?_⟩, ?_⟩
  · intro hb
    simp [frameBytes_length, frameEnd, hb]
  · intro hb
    have : (buf (i + 2) &&& 0x80 == 0x80) = false := by
      simpa using hb
    simp [frameBytes_length, frameEnd, this]
  · rw [frameBytes_length]
    unfold frameEnd; split
    · right; rfl
    · left; rfl

/-- Witness for C1 at concrete inputs: in the buffer that is all zero except
byte 0 set to 1, slot 16 is invalid and yields nothing, slot 0 is valid and
yields a 7-byte frame. -/
theorem c1_frame_length_witness :
    extractSlot (fun n => if n == 0 then 1 else 0) 16 = none ∧
    (frameBytes (fun n => if n == 0 then 1 else 0) 0).length = 7 := by
  refine ⟨(c1_frame_length (fun n => if n == 0 then 1 else 0) 16).1 (by decide), ?_⟩
  exact ((c1_frame_length (fun n => if n == 0 then 1 else 0) 0).2.1 (by decide)).2.2 (by decide)

/-- Claim C3: every slot offset visited by the scan keeps its whole frame
span inside the 4096-byte buffer: the span ends at or before index 4096 and
every byte index read within it is below 4096, whatever the buffer holds. -/
theorem c3_span_in_bounds (buf : SampleBuffer) (i : Nat) (hi : i ∈ slotOffsets) :
    i + 2 + frameEnd buf i ≤ 4096 ∧ ∀ k, k < frameEnd buf i → i + 2 + k < 4096 := by
  have hle : frameEnd buf i ≤ 14 := frameEnd_le buf i
  simp only [slotOffsets, List.mem_map, List.mem_range] at hi
  obtain ⟨j, hj, rfl⟩ := hi
  constructor
  · omega
  · intro k hk; omega

/-- Witness for C3 at the worst case: the last slot offset 4080 with a
buffer whose third slot byte has bit 0x80 set, so the long frame ends
exactly at index 4096. -/
theorem c3_span_in_bounds_witness :
    4080 + 2 + frameEnd (fun _ => 128) 4080 ≤ 4096 ∧
    ∀ k, k < frameEnd (fun _ => 128) 4080 → 4080 + 2 + k < 4096 :=
  c3_span_in_bounds (fun _ => 128) 4080 (by decide)

/-- Claim C4: the scan examines exactly 4096 / 16 = 256 candidate slots, no
offset twice; and a slot's validity and length classification depend only on
the bytes of its own 16-byte window. -/
theorem c4_slot_scan (b1 b2 : SampleBuffer) (i : Nat)
    (h : ∀ j, i ≤ j → j < i + 16 → b1 j = b2 j) :
    slotOffsets.length = 4096 / 16 ∧ slotOffsets.Nodup ∧
    slotValid b1 i = slotValid b2 i ∧ frameEnd b1 i = frameEnd b2 i := by
  refine ⟨by simp [slotOffsets], ?_, ?_, ?_⟩
  · exact (List.nodup_range 256).map (fun a b hab => by omega)
  · unfold slotValid
    rw [h i (Nat.le_refl i) (by omega)]
  · unfold frameEnd
    rw [h (i + 2) (by omega) (by omega)]

/-- Witness for C4 at concrete inputs: two buffers that agree on the window
of slot 0 but differ beyond it classify slot 0 identically. -/
theorem c4_slot_scan_witness :
    slotOffsets.length = 4096 / 16 ∧ slotOffsets.Nodup ∧
    slotValid (fun _ => 5) 0 = slotValid (fun j => if j < 16 then 5 else 9) 0 ∧
    frameEnd (fun _ => 5) 0 = frameEnd (fun j => if j < 16 then 5 else 9) 0 :=
  c4_slot_scan (fun _ => 5) (fun j => if j < 16 then 5 else 9) 0
    (fun j _ hj => by simp only [if_pos (show j < 16 by omega)])

/-- Decoding undoes encoding on single hex digits. -/
theorem hexVal_hexDigit : ∀ n, n < 16 → hexVal (hexDigit n) = n := by decide

/-- Every character `hexDigit` produces is a lowercase hex digit. -/
theorem isLowerHexDigit_hexDigit : ∀ n, n < 16 → isLowerHexDigit (hexDigit n) = true := by
  decide

/-- The two characters of one rendered byte. -/
theorem hexByte_data (b : Nat) :
    (hexByte b).data = [hexDigit (b / 16 % 16), hexDigit (b % 16)] := rfl

/-- Unfolding the record-building fold of `produce` into the list of hex
characters it accumulates. -/
theorem foldl_hexByte_data (frame : List Nat) (init : String) :
    (frame.foldl (fun s b => s ++ hexByte b) init).data
      = init.data ++ frame.flatMap (fun b => (hexByte b).data) := by
  induction frame generalizing init with
  | nil => simp
  | cons b bs ih => simp [List.foldl_cons, ih]

/-- The characters of a rendered wire record: a star, the hex characters of
each byte in order, a semicolon and a newline. -/
theorem renderRecord_data (frame : List Nat) :
    (renderRecord frame).data
      = '*' :: frame.flatMap (fun b => (hexByte b).data) ++ [';', '\n'] := by
  show ((frame.foldl (fun s b => s ++ hexByte b) "*") ++ ";\n").data = _
  rw [String.data_append, foldl_hexByte_data]
  rfl

/-- Rendering a frame produces two hex characters per byte. -/
theorem hexData_length (frame : List Nat) :
    (frame.flatMap fun b => (hexByte b).data).length = 2 * frame.length := by
  induction frame with
  | nil => rfl
  | cons b bs ih =>
    rw [List.flatMap_cons, List.length_append, hexByte_data, ih]
    simp only [List.length_cons, List.length_nil, List.length]
    omega

/-- Every character of a rendered frame's hex portion is a lowercase hex
digit. -/
theorem hexData_mem (frame : List Nat) (c : Char)
    (hc : c ∈ frame.flatMap fun b => (hexByte b).data) : isLowerHexDigit c = true := by
  simp only [List.mem_flatMap] at hc
  obtain ⟨b, _, hcb⟩ := hc
  rw [hexByte_data] at hcb
  simp only [List.mem_cons, List.not_mem_nil, or_false] at hcb
  rcases hcb with h | h <;> exact h ▸ isLowerHexDigit_hexDigit _ (by omega)

/-- Decoding the hex characters of a frame recovers the frame's bytes. -/
theorem decodeHex_hexData (frame : List Nat) (h : ∀ b ∈ frame, b < 256) :
    decodeHex (frame.flatMap fun b => (hexByte b).data) = frame := by
  induction frame with
  | nil => rfl
  | cons b bs ih =>
    have hb : b < 256 := h b (List.mem_cons_self b bs)
    simp only [List.flatMap_cons, hexByte_data, List.cons_append, List.nil_append, decodeHex]
    rw [hexVal_hexDigit _ (by omega), hexVal_hexDigit _ (by omega)]
    refine congrArg₂ (· :: ·) (by omega) ?_
    exact ih (fun x hx => h x (List.mem_cons_of_mem b hx))

/-- Claim C2: a wire record for a frame of 7 or 14 bytes is exactly a star,
the lowercase two-digit hex of each byte in order (twice the frame length in
characters), a semicolon and a newline; the 7-byte example frame renders as
the expected string. -/
theorem c2_wire_format (frame : List Nat) (h : ∀ b ∈ frame, b < 256)
    (_hlen : frame.length = 7 ∨ frame.length = 14) :
    (∃ hex : List Char,
      (renderRecord frame).data = '*' :: hex ++ [';', '\n'] ∧
      hex.length = 2 * frame.length ∧
      decodeHex hex = frame ∧
      ∀ c ∈ hex, isLowerHexDigit c = true) ∧
    renderRecord [0x8D, 0x4C, 0xA2, 0x1B, 0x58, 0x1B, 0x32] = "*8d4ca21b581b32;\n" := by
  refine ⟨⟨frame.flatMap (fun b => (hexByte b).data),
    renderRecord_data frame, hexData_length frame, decodeHex_hexData frame h,
    hexData_mem frame⟩, by decide⟩

/-- Witness for C2 at the spec's example frame. -/
theorem c2_wire_format_witness :
    (∃ hex : List Char,
      (renderRecord [0x8D, 0x4C, 0xA2, 0x1B, 0x58, 0x1B, 0x32]).data
        = '*' :: hex ++ [';', '\n'] ∧
      hex.length = 2 * ([0x8D, 0x4C, 0xA2, 0x1B, 0x58, 0x1B, 0x32] : List Nat).length ∧
      decodeHex hex = [0x8D, 0x4C, 0xA2, 0x1B, 0x58, 0x1B, 0x32] ∧
      ∀ c ∈ hex, isLowerHexDigit c = true) ∧
    renderRecord [0x8D, 0x4C, 0xA2, 0x1B, 0x58, 0x1B, 0x32] = "*8d4ca21b581b32;\n" :=
  c2_wire_format [0x8D, 0x4C, 0xA2, 0x1B, 0x58, 0x1B, 0x32] (by decide) (by decide)

/-- Claim C8: for any byte sequence of length 7 or 14, rendering it and then
hex-decoding the hex portion of the record recovers the bytes exactly. -/
theorem c8_roundtrip (frame : List Nat) (h : ∀ b ∈ frame, b < 256)
    (_hlen : frame.length = 7 ∨ frame.length = 14) :
    ∃ hex : List Char,
      (renderRecord frame).data = '*' :: hex ++ [';', '\n'] ∧
      decodeHex hex = frame :=
  ⟨frame.flatMap (fun b => (hexByte b).data), renderRecord_data frame,
    decodeHex_hexData frame h⟩

/-- Witness for C8 at a concrete 14-byte frame. -/
theorem c8_roundtrip_witness :
    ∃ hex : List Char,
      (renderRecord [0, 1, 2, 3, 4, 5, 6, 7, 8, 9, 250, 251, 254, 255]).data
        = '*' :: hex ++ [';', '\n'] ∧
      decodeHex hex = [0, 1, 2, 3, 4, 5, 6, 7, 8, 9, 250, 251, 254, 255] :=
  c8_roundtrip [0, 1, 2, 3, 4, 5, 6, 7, 8, 9, 250, 251, 254, 255] (by decide) (by decide)

/-- Claim C9: on the buffer of 4096 zero bytes with byte 0 set to 0x01,
extraction emits exactly one wire record, the short all-zero frame rendered
as 14 hex zero characters between the delimiters. -/
theorem c9_end_to_end :
    extract (fun n => if n == 0 then 1 else 0) = ["*00000000000000;\n"] := by
  decide

/-- An operation on the single-producer single-consumer handoff channel
created by `channel()` in `main`: the producer's `sender.send` or the
consumer's `rx.recv`. -/
inductive ChanOp
  | send (r : String)
  | recv
deriving DecidableEq

/-- State of the handoff channel together with the histories of what the
producer has sent and what the consumer has received. -/
structure ChanState where
  queue : List String
  sent : List String
  received : List String
deriving DecidableEq

/-- One channel operation: `send` enqueues at the back; `recv` dequeues the
front when the queue is nonempty and otherwise blocks, changing nothing. -/
def chanStep : ChanState → ChanOp → ChanState
  | st, ChanOp.send r => ⟨st.queue ++ [r], st.sent ++ [r], st.received⟩
  | st, ChanOp.recv =>
    match st.queue with
    | [] => st
    | r :: q => ⟨q, st.sent, st.received ++ [r]⟩

/-- Run an arbitrary interleaving of channel operations from the empty
channel. -/
def chanRun (ops : List ChanOp) : ChanState :=
  ops.foldl chanStep ⟨[], [], []⟩

/-- The channel invariant: what was sent is what was received followed by
what is still queued, so the receive order is the send order. -/
theorem chanStep_inv (st : ChanState) (op : ChanOp)
    (h : st.received ++ st.queue = st.sent) :
    (chanStep st op).received ++ (chanStep st op).queue = (chanStep st op).sent := by
  cases op with
  | send r => simp [chanStep, ← h, List.append_assoc]
  | recv =>
    cases hq : st.queue with
    | nil => simpa [chanStep, hq] using h
    | cons r q => simp [chanStep, hq, ← h, List.append_assoc]

/-- Sending a list of records enqueues them all, in order. -/
theorem chanRun_sendAll (l : List String) (st : ChanState) :
    (l.map ChanOp.send).foldl chanStep st
      = ⟨st.queue ++ l, st.sent ++ l, st.received⟩ := by
  induction l generalizing st with
  | nil => cases st; simp
  | cons r rs ih => simp [chanStep, ih, List.append_assoc]

/-- Receiving at least as many times as the queue holds drains the queue in
order into the received history. -/
theorem chanRun_recvAll (n : Nat) (q sent rcvd : List String) (hn : q.length ≤ n) :
    (List.replicate n ChanOp.recv).foldl chanStep ⟨q, sent, rcvd⟩
      = ⟨[], sent, rcvd ++ q⟩ := by
  induction n generalizing q rcvd with
  | zero =>
    cases q with
    | nil => simp
    | cons r q' => simp at hn
  | succ n ih =>
    cases q with
    | nil =>
      rw [List.replicate_succ, List.foldl_cons]
      simpa [chanStep] using ih [] rcvd (by simp)
    | cons r q' =>
      rw [List.replicate_succ, List.foldl_cons]
      simpa [chanStep] using ih q' (rcvd ++ [r]) (by simp at hn ⊢; omega)

/-- Claim C5: over any interleaving of producer sends and consumer receives,
the receive history followed by the still-queued records equals the send
history, so nothing is reordered or dropped; in particular, sending the
records extracted from a buffer and then receiving them all delivers exactly
the extracted sequence. -/
theorem c5_channel_order (ops : List ChanOp) (buf : SampleBuffer) :
    ((chanRun ops).received ++ (chanRun ops).queue = (chanRun ops).sent) ∧
    (chanRun ((extract buf).map ChanOp.send
        ++ List.replicate (extract buf).length ChanOp.recv)).received
      = extract buf := by
  constructor
  · have base : ∀ l : List ChanOp, ∀ st : ChanState,
        st.received ++ st.queue = st.sent →
        (l.foldl chanStep st).received ++ (l.foldl chanStep st).queue
          = (l.foldl chanStep st).sent := by
      intro l
      induction l with
      | nil => intro st h; exact h
      | cons op l ih => intro st h; exact ih (chanStep st op) (chanStep_inv st op h)
    exact base ops ⟨[], [], []⟩ rfl
  · unfold chanRun
    rw [List.foldl_append, chanRun_sendAll,
      chanRun_recvAll (extract buf).length _ _ _ (by simp)]
    simp

/-- An observable action of the acquisition thread `produce`: acquiring a
buffer with `sync_rx`, emitting one wire record, and the three shutdown
steps that follow the while loop. -/
inductive ProdEv
  | acquire
  | emit (r : String)
  | finishProgress
  | disableRx
  | closeDev
deriving DecidableEq

/-- The shutdown sequence after the while loop of `produce` exits:
`pb.finish_with_message`, then disabling the RX module, then closing the
device. -/
def shutdownEvents : List ProdEv :=
  [ProdEv.finishProgress, ProdEv.disableRx, ProdEv.closeDev]

/-- Trace of the acquisition loop of `produce`: `flags` lists the successive
values read from the shared `running` flag, one read at the top of each
iteration, and `bufs` the successive buffers `sync_rx` fills.  A `true`
read acquires the next buffer and emits every record extracted from it
before the flag is read again; a `false` read exits the loop and runs the
shutdown sequence. -/
def produceLoop : List Bool → List SampleBuffer → List ProdEv
  | [], _ => []
  | false :: _, _ => shutdownEvents
  | true :: _, [] => [ProdEv.acquire]
  | true :: fs, buf :: bufs =>
      ProdEv.acquire :: ((extract buf).map ProdEv.emit ++ produceLoop fs bufs)

/-- Claim C6: when the flag reads true k times and then false, the trace is
exactly: for each of the first k buffers in order, an acquisition followed by
every record extracted from that buffer; then the shutdown sequence in order
(finalize progress, disable streaming, close device).  Cancellation is
observed only between buffers and no record of an acquired buffer is
dropped. -/
theorem c6_cancellation (k : Nat) (bufs : List SampleBuffer) (hk : k ≤ bufs.length) :
    produceLoop (List.replicate k true ++ [false]) bufs
      = (bufs.take k).flatMap
          (fun b => ProdEv.acquire :: (extract b).map ProdEv.emit)
        ++ shutdownEvents := by
  induction k generalizing bufs with
  | zero => simp [produceLoop]
  | succ k ih =>
    cases bufs with
    | nil => simp at hk
    | cons b bs =>
      rw [List.replicate_succ, List.cons_append]
      show ProdEv.acquire :: ((extract b).map ProdEv.emit
          ++ produceLoop (List.replicate k true ++ [false]) bs) = _
      rw [ih bs (by simpa using hk)]
      simp [List.flatMap_cons, List.append_assoc]

/-- Witness for C6 at a concrete run: one iteration over the buffer with a
single valid slot, then cancellation. -/
theorem c6_cancellation_witness :
    produceLoop (List.replicate 1 true ++ [false])
        [fun n => if n == 0 then 1 else 0]
      = (([fun n => if n == 0 then 1 else 0] : List SampleBuffer).take 1).flatMap
          (fun b => ProdEv.acquire :: (extract b).map ProdEv.emit)
        ++ shutdownEvents :=
  c6_cancellation 1 [fun n => if n == 0 then 1 else 0] (by simp)

/-- Outcome of one TCP write call in the delivery loop: an I/O error, or the
count of bytes the stream accepted. -/
def WriteResult : Type := Except Unit Nat

/-- An observable action of the delivery loop in `main`. -/
inductive DelEv
  | wrote (n : Nat) (len : Nat)
  | warned
  | flushed
  | stopped
deriving DecidableEq

/-- Trace of the delivery loop of `main` over the records it receives, with
`net` the successive outcomes of the underlying TCP writes.  Each record is
written once; a failed write terminates the run at once (the unwrap of the
write result); a short write logs a warning and is not retried; every
record whose write succeeds is followed by a flush before the next record
is taken. -/
def deliverRun : List String → List WriteResult → List DelEv
  | [], _ => []
  | _ :: _, [] => []
  | r :: rs, res :: ress =>
    match res with
    | Except.error _ => [DelEv.stopped]
    | Except.ok n =>
        DelEv.wrote n r.length
          :: ((if n < r.length then [DelEv.warned] else [])
            ++ DelEv.flushed :: deliverRun rs ress)

/-- Claim C7: a successful short write produces a warning, no retry, a flush
and the run continues with the next record; a successful full write produces
no warning, a flush and the run continues; a failed write terminates the run
immediately. -/
theorem c7_delivery (r : String) (rs : List String) (n : Nat)
    (ress : List WriteResult) :
    (n < r.length →
      deliverRun (r :: rs) (Except.ok n :: ress)
        = DelEv.wrote n r.length :: DelEv.warned :: DelEv.flushed
            :: deliverRun rs ress) ∧
    (¬ n < r.length →
      deliverRun (r :: rs) (Except.ok n :: ress)
        = DelEv.wrote n r.length :: DelEv.flushed :: deliverRun rs ress) ∧
    deliverRun (r :: rs) (Except.error () :: ress) = [DelEv.stopped] := by
  refine ⟨fun h => ?_, fun h => ?_, rfl⟩
  · simp [deliverRun, h]
  · simp [deliverRun, h]

/-- Witness for C7 at concrete inputs: a short write of 3 of the 17 bytes of
the zero record warns and continues to the next record; a failed write
terminates the run. -/
theorem c7_delivery_witness :
    deliverRun ["*00000000000000;\n", "*00000000000000;\n"]
        [Except.ok 3, Except.ok 17]
      = DelEv.wrote 3 ("*00000000000000;\n").length :: DelEv.warned
          :: DelEv.flushed
          :: deliverRun ["*00000000000000;\n"] [Except.ok 17] ∧
    deliverRun ["*00000000000000;\n"] [Except.error ()] = [DelEv.stopped] :=
  ⟨(c7_delivery "*00000000000000;\n" ["*00000000000000;\n"] 3
      [Except.ok 17]).1 (by decide),
    (c7_delivery "*00000000000000;\n" [] 3 []).2.2⟩

/-- Result of `sender.send(ascii_buf)`: the mpsc send succeeds while the
receiver end is alive and returns a disconnect error once the receiver has
been dropped. -/
def sendResult (receiverAlive : Bool) : Except Unit Unit :=
  if receiverAlive then Except.ok () else Except.error ()

/-- Emission of one buffer's records by `produce` with the remote toggle:
the records actually handed to the channel, and whether the thread aborted
on the unwrap of a failed send.  When remote is off the send is skipped. -/
def emitRecords (remote receiverAlive : Bool) : List String → List String × Bool
  | [] => ([], false)
  | r :: rs =>
    if remote then
      match sendResult receiverAlive with
      | Except.error _ => ([], true)
      | Except.ok _ =>
          let p := emitRecords remote receiverAlive rs
          (r :: p.1, p.2)
    else emitRecords remote receiverAlive rs

/-- With the receiver alive, emission never aborts. -/
theorem emitRecords_alive (l : List String) :
    (emitRecords true true l).2 = false := by
  induction l with
  | nil => rfl
  | cons r rs ih => simp [emitRecords, sendResult, ih]

/-- Claim C10: with remote delivery enabled and the channel receiver gone,
the producer aborts at the very next extracted record — no record of the
buffer is handed over and the thread stops — while with the receiver alive
it never aborts. -/
theorem c10_dead_receiver (buf : SampleBuffer) (h : extract buf ≠ []) :
    emitRecords true false (extract buf) = ([], true) ∧
    (emitRecords true true (extract buf)).2 = false := by
  refine ⟨?_, emitRecords_alive (extract buf)⟩
  cases hE : extract buf with
  | nil => exact absurd hE h
  | cons r rs => simp [emitRecords, sendResult]

/-- Witness for C10 at the buffer with a single valid slot. -/
theorem c10_dead_receiver_witness :
    emitRecords true false (extract (fun n => if n == 0 then 1 else 0))
      = ([], true) ∧
    (emitRecords true true (extract (fun n => if n == 0 then 1 else 0))).2
      = false :=
  c10_dead_receiver (fun n => if n == 0 then 1 else 0) (by decide)

end BladeRFAdsb
